import Mathlib

/-!
Verification of the hex-mesh background generator
(repository charalampidis-minimal).

The mesh builder and the interaction/render-loop state updates are
translated from the JavaScript sources into executable Lean definitions:

* machine numbers (JS doubles, Float32Array entries) are modelled as exact
  rationals; tuning constants such as 0.07, 1.25, 4.5 become the exact
  rationals 7/100, 5/4, 9/2;
* the constant `Math.sqrt(3) * 0.5` (an irrational whose runtime value is
  one fixed positive double) is kept as a parameter `cellHeight`, exactly
  as the decomposed builder `buildHexPoints(cols, rows, cellHeight)`
  already does; theorems assume only `0 < cellHeight` where the value
  matters;
* the `Infinity` / `-Infinity` initial accumulators of the bounding-box
  loop are modelled with `Option ℚ` (`none` plays the role of the infinite
  initial value, which every finite coordinate beats);
* `Uint16Array` construction truncates each stored index modulo 2^16,
  which the translation keeps.
-/

namespace HexMesh

/-- A raw lattice point in pre-normalization grid units, as pushed by the
point-generation loops of both mesh-builder variants. -/
structure Point where
  x : ℚ
  y : ℚ
deriving Repr, DecidableEq

/-- The Grid record returned by the mesh builder: a flat position buffer
(two rationals per point, modelling the Float32Array) and a flat index
buffer (pairs of line-segment endpoint indices, modelling the
Uint16Array). -/
structure Grid where
  positions : List ℚ
  indices : List ℕ
deriving Repr, DecidableEq

/-- buildHexPoints (build.js): row j, column i gives
x = i + (j % 2) * 0.5 and y = j * cellHeight, pushed in row-major order. -/
def buildHexPoints (cols rows : ℕ) (cellHeight : ℚ) : List Point :=
  (List.range rows).flatMap (fun (j : ℕ) =>
    let offset : ℚ := ((j % 2 : ℕ) : ℚ) * (1/2)
    (List.range cols).map (fun (i : ℕ) => ⟨(i : ℚ) + offset, (j : ℚ) * cellHeight⟩))

/-- The four running extrema of the bounding-box loop of computeBounds;
none models the Infinity / -Infinity initial values. -/
structure BoundsAcc where
  minX : Option ℚ
  maxX : Option ℚ
  minY : Option ℚ
  maxY : Option ℚ

/-- One `if (v < min) min = v` update of a running minimum; a finite value
always beats the Infinity initial state (`none`). -/
def updMin (m : Option ℚ) (v : ℚ) : Option ℚ :=
  match m with
  | none => some v
  | some w => if v < w then some v else some w

/-- One `if (v > max) max = v` update of a running maximum. -/
def updMax (m : Option ℚ) (v : ℚ) : Option ℚ :=
  match m with
  | none => some v
  | some w => if w < v then some v else some w

/-- The bounding-box loop of computeBounds (build.js): one pass over the
points updating the four extrema. -/
def boundsAcc (pts : List Point) : BoundsAcc :=
  pts.foldl
    (fun a p => ⟨updMin a.minX p.x, updMax a.maxX p.x, updMin a.minY p.y, updMax a.maxY p.y⟩)
    ⟨none, none, none, none⟩

/-- The bounds record consumed by normalizePositions. -/
structure Bounds where
  minX : ℚ
  minY : ℚ
  spanX : ℚ
  spanY : ℚ
deriving Repr, DecidableEq

/-- computeBounds (build.js): bounding box of the points with the
`span = max - min or-else 1` degenerate-span guard (JS `||` takes the
right operand exactly when the difference is 0). For the empty list the
source leaves the extrema at their infinite initial values, which no
caller ever uses; the translation collapses them to 0 there, which the
guard then turns into spans of 1. -/
def computeBounds (pts : List Point) : Bounds :=
  let a := boundsAcc pts
  let minX := a.minX.getD 0
  let maxX := a.maxX.getD 0
  let minY := a.minY.getD 0
  let maxY := a.maxY.getD 0
  ⟨minX, minY,
    if maxX - minX = 0 then 1 else maxX - minX,
    if maxY - minY = 0 then 1 else maxY - minY⟩

/-- normalizePositions (build.js): each coordinate is mapped by
(coord - min) / span * 2 - 1 and the x component is multiplied by the
widen factor; the pairs are written consecutively into the flat buffer. -/
def normalizePositions (pts : List Point) (b : Bounds) (widenFactor : ℚ) : List ℚ :=
  pts.flatMap (fun p =>
    let nx := ((p.x - b.minX) / b.spanX) * 2 - 1
    let ny := ((p.y - b.minY) / b.spanY) * 2 - 1
    [nx * widenFactor, ny])

/-- The neighborOffsets table of buildHexEdges (build.js): row 0 for even
rows (right, down, down-left), row 1 for odd rows (right, down,
down-right). -/
def neighborOffsets : List (List (ℤ × ℤ)) :=
  [[(1, 0), (0, 1), (-1, 1)],
   [(1, 0), (0, 1), (1, 1)]]

/-- buildHexEdges (build.js): for every point, every in-bounds neighbor
from the parity-selected offset row contributes the index pair
(j * cols + i, nj * cols + ni). -/
def buildHexEdges (cols rows : ℕ) : List ℕ :=
  (List.range rows).flatMap (fun (j : ℕ) =>
    let neighbors := neighborOffsets.getD (j % 2) []
    (List.range cols).flatMap (fun (i : ℕ) =>
      let a := j * cols + i
      neighbors.flatMap (fun d =>
        let ni : ℤ := (i : ℤ) + d.1
        let nj : ℤ := (j : ℤ) + d.2
        if ni < 0 ∨ (cols : ℤ) ≤ ni ∨ nj < 0 ∨ (rows : ℤ) ≤ nj then []
        else [a, nj.toNat * cols + ni.toNat])))

/-- createHexGrid (build.js, decomposed pipeline): build raw points with
cellHeight = Math.sqrt(3) * 0.5 (kept as the parameter cellHeight),
compute bounds, normalize with widen factor 1.25, build edges, and store
the indices in a Uint16Array (values truncated modulo 2^16). -/
def createHexGrid (cellHeight : ℚ) (cols rows : ℕ) : Grid :=
  let rawPoints := buildHexPoints cols rows cellHeight
  let bounds := computeBounds rawPoints
  let positions := normalizePositions rawPoints bounds (5/4)
  let indices := buildHexEdges cols rows
  ⟨positions, indices.map (· % 65536)⟩

/-- createHexGrid of the monolithic variant (src/main.js), translated
directly: inline point loop (x = i + odd * 0.5, y = j * cellH with
cellH = Math.sqrt(3) * 0.5 * cellW, cellW = 1, kept as the parameter
cellHeight), inline bounds pass with the same span guard, inline
normalization (nx scaled by 1.25), and the push-based edge loop
(right neighbor, then vertical-ish down neighbor, then the parity
diagonal di = odd ? i+1 : i-1 when 0 ≤ di < cols). -/
def createHexGridSimple (cellHeight : ℚ) (cols rows : ℕ) : Grid :=
  let raw : List Point :=
    (List.range rows).flatMap (fun (j : ℕ) =>
      let odd : ℚ := ((j % 2 : ℕ) : ℚ)
      (List.range cols).map (fun (i : ℕ) => ⟨(i : ℚ) + odd * (1/2), (j : ℚ) * cellHeight⟩))
  let a := boundsAcc raw
  let minX := a.minX.getD 0
  let maxX := a.maxX.getD 0
  let minY := a.minY.getD 0
  let maxY := a.maxY.getD 0
  let spanX := if maxX - minX = 0 then 1 else maxX - minX
  let spanY := if maxY - minY = 0 then 1 else maxY - minY
  let positions : List ℚ :=
    raw.flatMap (fun p =>
      let nx := ((p.x - minX) / spanX) * 2 - 1
      let ny := ((p.y - minY) / spanY) * 2 - 1
      [nx * (5/4), ny])
  let edges : List ℕ :=
    (List.range rows).flatMap (fun (j : ℕ) =>
      let odd := j % 2
      (List.range cols).flatMap (fun (i : ℕ) =>
        let a := j * cols + i
        (if i + 1 < cols then [a, j * cols + (i + 1)] else []) ++
        (if j + 1 < rows then
          [a, (j + 1) * cols + i] ++
          (let di : ℤ := if odd = 1 then (i : ℤ) + 1 else (i : ℤ) - 1
           if 0 ≤ di ∧ di < (cols : ℤ) then [a, (j + 1) * cols + di.toNat] else [])
         else [])))
  ⟨positions, edges.map (· % 65536)⟩

/-- The responsive scale bucketing performed every frame by the render
loop: strict comparisons of window.innerWidth against the 480 / 768 / 1024
breakpoints choosing scale 1.8, 1.4, 1.2 or 1. -/
def scaleForWidth (w : ℕ) : ℚ :=
  if w < 480 then 9/5
  else if w < 768 then 7/5
  else if w < 1024 then 6/5
  else 1

/-- One frame of pointer easing: mouse += (targetMouse - mouse) * 0.07 on
each axis. -/
def easeStep (target m : ℚ × ℚ) : ℚ × ℚ :=
  (m.1 + (target.1 - m.1) * (7/100), m.2 + (target.2 - m.2) * (7/100))

/-- The easing update iterated over n frames with the target held
constant. -/
def easeIter (target : ℚ × ℚ) : ℕ → ℚ × ℚ → ℚ × ℚ
  | 0, m => m
  | n + 1, m => easeIter target n (easeStep target m)

/-- Squared Euclidean distance between two pointer positions; distance
comparisons between nonnegative quantities are phrased on squares to stay
inside the rationals. -/
def distSq (a b : ℚ × ℚ) : ℚ :=
  (b.1 - a.1) ^ 2 + (b.2 - a.2) ^ 2

/-- The single shock record of the render loop: an origin point and a
start timestamp, with -1 as the no-active-shock sentinel (milliseconds,
as produced by performance.now). -/
structure ShockState where
  originX : ℚ
  originY : ℚ
  start : ℚ
deriving Repr, DecidableEq

/-- The initial shock state: origin (0, 0), start -1. -/
def shockInit : ShockState := ⟨0, 0, -1⟩

/-- The per-frame shock evaluation of the render loop at timestamp ms:
shockAge starts at -1; an active shock (start at least 0) gets age
(ms - start) * 0.001, and an age beyond 4.5 clears the shock (start and
age reset to -1); shockStrength = max(0, 1 - age / 3.2) and
shockHeat = max(0, 1 - age / 2.2) apply only to a nonnegative age and are
0 otherwise. Returns the updated state, the age, the strength and the
heat. -/
def shockFrame (s : ShockState) (ms : ℚ) : ShockState × ℚ × ℚ × ℚ :=
  let p : ShockState × ℚ :=
    if 0 ≤ s.start then
      let age := (ms - s.start) * (1/1000)
      if 9/2 < age then (⟨s.originX, s.originY, -1⟩, -1) else (s, age)
    else (s, -1)
  let shockStrength := if 0 ≤ p.2 then max 0 (1 - p.2 / (16/5)) else 0
  let shockHeat := if 0 ≤ p.2 then max 0 (1 - p.2 / (11/5)) else 0
  (p.1, p.2, shockStrength, shockHeat)

/-- The two kinds of events that touch the shock record: a primary
pointer-down at clip-space coordinates (x, y) and timestamp now, and a
render frame at timestamp ms. -/
inductive ShockEvent where
  | down (x y now : ℚ)
  | frame (ms : ℚ)
deriving Repr, DecidableEq

/-- Effect of one event on the shock record: the pointerdown handler
overwrites origin and start unconditionally; a frame applies the aging
logic of shockFrame. -/
def shockStep (s : ShockState) (e : ShockEvent) : ShockState :=
  match e with
  | .down x y now => ⟨x, y, now⟩
  | .frame ms => (shockFrame s ms).1

/-- A whole interaction history folded over the shock record. -/
def shockRun (s : ShockState) (evs : List ShockEvent) : ShockState :=
  evs.foldl shockStep s

/-- The entries at even offsets of a flat position buffer: the x
coordinates. -/
def xsOf : List ℚ → List ℚ
  | [] => []
  | [_] => []
  | x :: _ :: t => x :: xsOf t

/-- The entries at odd offsets of a flat position buffer: the y
coordinates. -/
def ysOf : List ℚ → List ℚ
  | [] => []
  | [_] => []
  | _ :: y :: t => y :: ysOf t

/-- Scalar running-minimum fold: the single-coordinate shadow of the
bounding-box loop. -/
def minFold (f : Point → ℚ) (l : List Point) (a : Option ℚ) : Option ℚ :=
  l.foldl (fun m p => updMin m (f p)) a

/-- Scalar running-maximum fold. -/
def maxFold (f : Point → ℚ) (l : List Point) (a : Option ℚ) : Option ℚ :=
  l.foldl (fun m p => updMax m (f p)) a

lemma boundsAcc_eq_folds (pts : List Point) :
    boundsAcc pts =
      ⟨minFold (·.x) pts none, maxFold (·.x) pts none,
       minFold (·.y) pts none, maxFold (·.y) pts none⟩ := by
  show List.foldl _ (⟨none, none, none, none⟩ : BoundsAcc) pts = _
  suffices h : ∀ (l : List Point) (a : BoundsAcc),
      l.foldl (fun a p =>
        (⟨updMin a.minX p.x, updMax a.maxX p.x, updMin a.minY p.y, updMax a.maxY p.y⟩ : BoundsAcc)) a
        = ⟨minFold (·.x) l a.minX, maxFold (·.x) l a.maxX,
           minFold (·.y) l a.minY, maxFold (·.y) l a.maxY⟩ by
    exact h pts ⟨none, none, none, none⟩
  intro l
  induction l with
  | nil => intro a; rfl
  | cons p t ih =>
      intro a
      simp only [List.foldl_cons, minFold, maxFold] at ih ⊢
      exact ih _

lemma minFold_some_spec (f : Point → ℚ) :
    ∀ (l : List Point) (a : ℚ), ∃ v, minFold f l (some a) = some v ∧ v ≤ a ∧
      (v = a ∨ ∃ p ∈ l, v = f p) ∧ ∀ p ∈ l, v ≤ f p := by
  intro l
  induction l with
  | nil =>
      intro a
      exact ⟨a, rfl, le_refl a, Or.inl rfl, by simp⟩
  | cons p t ih =>
      intro a
      have hstep : minFold f (p :: t) (some a) = minFold f t (updMin (some a) (f p)) := rfl
      by_cases h : f p < a
      · obtain ⟨v, hv, hva, hsrc, hall⟩ := ih (f p)
        refine ⟨v, ?_, hva.trans h.le, ?_, ?_⟩
        · rw [hstep]; simpa [updMin, h] using hv
        · rcases hsrc with rfl | ⟨q, hq, rfl⟩
          · exact Or.inr ⟨p, by simp, rfl⟩
          · exact Or.inr ⟨q, by simp [hq], rfl⟩
        · intro q hq
          rcases List.mem_cons.mp hq with rfl | hq'
          · exact hva
          · exact hall q hq'
      · obtain ⟨v, hv, hva, hsrc, hall⟩ := ih a
        refine ⟨v, ?_, hva, ?_, ?_⟩
        · rw [hstep]; simpa [updMin, h] using hv
        · rcases hsrc with rfl | ⟨q, hq, rfl⟩
          · exact Or.inl rfl
          · exact Or.inr ⟨q, by simp [hq], rfl⟩
        · intro q hq
          rcases List.mem_cons.mp hq with rfl | hq'
          · exact hva.trans (not_lt.mp h)
          · exact hall q hq'

lemma maxFold_some_spec (f : Point → ℚ) :
    ∀ (l : List Point) (a : ℚ), ∃ v, maxFold f l (some a) = some v ∧ a ≤ v ∧
      (v = a ∨ ∃ p ∈ l, v = f p) ∧ ∀ p ∈ l, f p ≤ v := by
  intro l
  induction l with
  | nil =>
      intro a
      exact ⟨a, rfl, le_refl a, Or.inl rfl, by simp⟩
  | cons p t ih =>
      intro a
      have hstep : maxFold f (p :: t) (some a) = maxFold f t (updMax (some a) (f p)) := rfl
      by_cases h : a < f p
      · obtain ⟨v, hv, hva, hsrc, hall⟩ := ih (f p)
        refine ⟨v, ?_, h.le.trans hva, ?_, ?_⟩
        · rw [hstep]; simpa [updMax, h] using hv
        · rcases hsrc with rfl | ⟨q, hq, rfl⟩
          · exact Or.inr ⟨p, by simp, rfl⟩
          · exact Or.inr ⟨q, by simp [hq], rfl⟩
        · intro q hq
          rcases List.mem_cons.mp hq with rfl | hq'
          · exact hva
          · exact hall q hq'
      · obtain ⟨v, hv, hva, hsrc, hall⟩ := ih a
        refine ⟨v, ?_, hva, ?_, ?_⟩
        · rw [hstep]; simpa [updMax, h] using hv
        · rcases hsrc with rfl | ⟨q, hq, rfl⟩
          · exact Or.inl rfl
          · exact Or.inr ⟨q, by simp [hq], rfl⟩
        · intro q hq
          rcases List.mem_cons.mp hq with rfl | hq'
          · exact (not_lt.mp h).trans hva
          · exact hall q hq'

lemma minFold_nonempty_spec (f : Point → ℚ) (p : Point) (t : List Point) :
    ∃ v, minFold f (p :: t) none = some v ∧ (∃ q ∈ p :: t, v = f q) ∧
      ∀ q ∈ p :: t, v ≤ f q := by
  have hstep : minFold f (p :: t) none = minFold f t (some (f p)) := rfl
  obtain ⟨v, hv, hva, hsrc, hall⟩ := minFold_some_spec f t (f p)
  refine ⟨v, by rw [hstep]; exact hv, ?_, ?_⟩
  · rcases hsrc with rfl | ⟨q, hq, rfl⟩
    · exact ⟨p, by simp, rfl⟩
    · exact ⟨q, by simp [hq], rfl⟩
  · intro q hq
    rcases List.mem_cons.mp hq with rfl | hq'
    · exact hva
    · exact hall q hq'

lemma maxFold_nonempty_spec (f : Point → ℚ) (p : Point) (t : List Point) :
    ∃ v, maxFold f (p :: t) none = some v ∧ (∃ q ∈ p :: t, v = f q) ∧
      ∀ q ∈ p :: t, f q ≤ v := by
  have hstep : maxFold f (p :: t) none = maxFold f t (some (f p)) := rfl
  obtain ⟨v, hv, hva, hsrc, hall⟩ := maxFold_some_spec f t (f p)
  refine ⟨v, by rw [hstep]; exact hv, ?_, ?_⟩
  · rcases hsrc with rfl | ⟨q, hq, rfl⟩
    · exact ⟨p, by simp, rfl⟩
    · exact ⟨q, by simp [hq], rfl⟩
  · intro q hq
    rcases List.mem_cons.mp hq with rfl | hq'
    · exact hva
    · exact hall q hq'

lemma mem_buildHexPoints {cols rows : ℕ} {cellH : ℚ} {p : Point} :
    p ∈ buildHexPoints cols rows cellH ↔
      ∃ j, j < rows ∧ ∃ i, i < cols ∧
        p = ⟨(i : ℚ) + ((j % 2 : ℕ) : ℚ) * (1/2), (j : ℚ) * cellH⟩ := by
  have hdef : buildHexPoints cols rows cellH =
      (List.range rows).flatMap (fun (j : ℕ) => (List.range cols).map
        (fun (i : ℕ) =>
          (⟨(i : ℚ) + ((j % 2 : ℕ) : ℚ) * (1/2), (j : ℚ) * cellH⟩ : Point))) := rfl
  rw [hdef, List.mem_flatMap]
  constructor
  · rintro ⟨j, hjmem, hpmem⟩
    rw [List.mem_map] at hpmem
    obtain ⟨i, himem, rfl⟩ := hpmem
    exact ⟨j, List.mem_range.mp hjmem, i, List.mem_range.mp himem, rfl⟩
  · rintro ⟨j, hj, i, hi, rfl⟩
    exact ⟨j, List.mem_range.mpr hj, List.mem_map.mpr ⟨i, List.mem_range.mpr hi, rfl⟩⟩

lemma buildHexPoints_ne_nil {cols rows : ℕ} {cellH : ℚ}
    (hc : 1 ≤ cols) (hr : 1 ≤ rows) :
    buildHexPoints cols rows cellH ≠ [] := by
  intro h
  have : (⟨((0 : ℕ) : ℚ) + (((0 : ℕ) % 2 : ℕ) : ℚ) * (1/2), ((0 : ℕ) : ℚ) * cellH⟩ : Point)
      ∈ buildHexPoints cols rows cellH :=
    mem_buildHexPoints.mpr ⟨0, hr, 0, hc, rfl⟩
  rw [h] at this
  exact absurd this (List.not_mem_nil _)

lemma hex_x_nonneg {cols rows : ℕ} {cellH : ℚ} {q : Point}
    (hq : q ∈ buildHexPoints cols rows cellH) : (0 : ℚ) ≤ q.x := by
  obtain ⟨j, _, i, _, rfl⟩ := mem_buildHexPoints.mp hq
  have h1 : (0 : ℚ) ≤ (i : ℚ) := by positivity
  have h2 : (0 : ℚ) ≤ ((j % 2 : ℕ) : ℚ) * (1/2) := by positivity
  simpa using add_nonneg h1 h2

lemma hex_x_le {cols rows : ℕ} {cellH : ℚ} {q : Point}
    (hq : q ∈ buildHexPoints cols rows cellH) : q.x ≤ (cols : ℚ) - 1 + 1/2 := by
  obtain ⟨j, _, i, hi, rfl⟩ := mem_buildHexPoints.mp hq
  have h1 : (i : ℚ) ≤ (cols : ℚ) - 1 := by
    have : (i : ℚ) + 1 ≤ (cols : ℚ) := by exact_mod_cast Nat.succ_le_of_lt hi
    linarith
  have h2 : ((j % 2 : ℕ) : ℚ) * (1/2) ≤ 1/2 := by
    have ha : (j % 2 : ℕ) ≤ 1 := by omega
    have hb : ((j % 2 : ℕ) : ℚ) ≤ 1 := by exact_mod_cast ha
    nlinarith
  show (i : ℚ) + ((j % 2 : ℕ) : ℚ) * (1/2) ≤ (cols : ℚ) - 1 + 1/2
  linarith

lemma hex_y_nonneg {cols rows : ℕ} {cellH : ℚ} {q : Point} (hcell : 0 ≤ cellH)
    (hq : q ∈ buildHexPoints cols rows cellH) : (0 : ℚ) ≤ q.y := by
  obtain ⟨j, _, i, _, rfl⟩ := mem_buildHexPoints.mp hq
  have : (0 : ℚ) ≤ (j : ℚ) * cellH := by positivity
  simpa using this

lemma hex_y_le {cols rows : ℕ} {cellH : ℚ} {q : Point} (hcell : 0 ≤ cellH)
    (hq : q ∈ buildHexPoints cols rows cellH) : q.y ≤ ((rows : ℚ) - 1) * cellH := by
  obtain ⟨j, hj, i, _, rfl⟩ := mem_buildHexPoints.mp hq
  have h1 : (j : ℚ) ≤ (rows : ℚ) - 1 := by
    have : (j : ℚ) + 1 ≤ (rows : ℚ) := by exact_mod_cast Nat.succ_le_of_lt hj
    linarith
  show (j : ℚ) * cellH ≤ ((rows : ℚ) - 1) * cellH
  exact mul_le_mul_of_nonneg_right h1 hcell

lemma hex_mem_origin {cols rows : ℕ} {cellH : ℚ} (hc : 1 ≤ cols) (hr : 1 ≤ rows) :
    (⟨0, 0⟩ : Point) ∈ buildHexPoints cols rows cellH := by
  refine mem_buildHexPoints.mpr ⟨0, by omega, 0, by omega, ?_⟩
  simp

lemma hex_mem_top {cols rows : ℕ} {cellH : ℚ} (hc : 1 ≤ cols) (hr : 1 ≤ rows) :
    (⟨((rows - 1 : ℕ) % 2 : ℕ) * (1/2), ((rows : ℚ) - 1) * cellH⟩ : Point)
      ∈ buildHexPoints cols rows cellH := by
  refine mem_buildHexPoints.mpr ⟨rows - 1, by omega, 0, by omega, ?_⟩
  have hcast : ((rows - 1 : ℕ) : ℚ) = (rows : ℚ) - 1 := by
    have h1 : (1 : ℕ) ≤ rows := by omega
    push_cast [Nat.cast_sub h1]
    ring
  simp [hcast]

lemma computeBounds_hex {cols rows : ℕ} {cellH : ℚ}
    (hcell : 0 < cellH) (hc : 1 ≤ cols) (hr : 2 ≤ rows) :
    computeBounds (buildHexPoints cols rows cellH) =
      ⟨0, 0, (cols : ℚ) - 1/2, ((rows : ℚ) - 1) * cellH⟩ := by
  obtain ⟨p, t, hpt⟩ := List.exists_cons_of_ne_nil
    (@buildHexPoints_ne_nil cols rows cellH hc (le_trans (by norm_num) hr))
  have hmem00 : (⟨0, 0⟩ : Point) ∈ buildHexPoints cols rows cellH :=
    hex_mem_origin hc (by omega)
  have hmemMaxX : (⟨(cols : ℚ) - 1 + 1/2, cellH⟩ : Point) ∈ buildHexPoints cols rows cellH := by
    refine mem_buildHexPoints.mpr ⟨1, by omega, cols - 1, by omega, ?_⟩
    have : ((cols - 1 : ℕ) : ℚ) = (cols : ℚ) - 1 := by
      have : (1 : ℕ) ≤ cols := hc
      push_cast [Nat.cast_sub this]
      ring
    simp [this]
  have hmemMaxY : (⟨((rows - 1 : ℕ) % 2 : ℕ) * (1/2), ((rows : ℚ) - 1) * cellH⟩ : Point)
      ∈ buildHexPoints cols rows cellH :=
    hex_mem_top hc (by omega)
  have hxlow : ∀ q ∈ buildHexPoints cols rows cellH, (0 : ℚ) ≤ q.x :=
    fun q hq => hex_x_nonneg hq
  have hxhigh : ∀ q ∈ buildHexPoints cols rows cellH, q.x ≤ (cols : ℚ) - 1 + 1/2 :=
    fun q hq => hex_x_le hq
  have hylow : ∀ q ∈ buildHexPoints cols rows cellH, (0 : ℚ) ≤ q.y :=
    fun q hq => hex_y_nonneg hcell.le hq
  have hyhigh : ∀ q ∈ buildHexPoints cols rows cellH, q.y ≤ ((rows : ℚ) - 1) * cellH :=
    fun q hq => hex_y_le hcell.le hq
  obtain ⟨vminX, hminXeq, ⟨qx, hqx, hqxv⟩, hminXle⟩ := minFold_nonempty_spec (·.x) p t
  obtain ⟨vmaxX, hmaxXeq, ⟨qX, hqX, hqXv⟩, hmaxXle⟩ := maxFold_nonempty_spec (·.x) p t
  obtain ⟨vminY, hminYeq, ⟨qy, hqy, hqyv⟩, hminYle⟩ := minFold_nonempty_spec (·.y) p t
  obtain ⟨vmaxY, hmaxYeq, ⟨qY, hqY, hqYv⟩, hmaxYle⟩ := maxFold_nonempty_spec (·.y) p t
  rw [← hpt] at hminXeq hmaxXeq hminYeq hmaxYeq hminXle hmaxXle hminYle hmaxYle
  rw [← hpt] at hqx hqX hqy hqY
  have hvminX : vminX = 0 :=
    le_antisymm (by simpa using hminXle _ hmem00) (hqxv ▸ hxlow qx hqx)
  have hvmaxX : vmaxX = (cols : ℚ) - 1 + 1/2 :=
    le_antisymm (hqXv ▸ hxhigh qX hqX) (by simpa using hmaxXle _ hmemMaxX)
  have hvminY : vminY = 0 :=
    le_antisymm (by simpa using hminYle _ hmem00) (hqyv ▸ hylow qy hqy)
  have hvmaxY : vmaxY = ((rows : ℚ) - 1) * cellH :=
    le_antisymm (hqYv ▸ hyhigh qY hqY) (by simpa using hmaxYle _ hmemMaxY)
  have hspanX : (cols : ℚ) - 1 + 1/2 - 0 ≠ 0 := by
    have : (1 : ℚ) ≤ (cols : ℚ) := by exact_mod_cast hc
    intro h
    linarith
  have hspanY : ((rows : ℚ) - 1) * cellH - 0 ≠ 0 := by
    have h2 : (2 : ℚ) ≤ (rows : ℚ) := by exact_mod_cast hr
    intro h
    have : ((rows : ℚ) - 1) * cellH = 0 := by linarith
    rcases mul_eq_zero.mp this with h1 | h1
    · linarith
    · exact absurd h1 hcell.ne'
  unfold computeBounds
  rw [boundsAcc_eq_folds]
  simp only [hminXeq, hmaxXeq, hminYeq, hmaxYeq, Option.getD_some,
    hvminX, hvmaxX, hvminY, hvmaxY]
  rw [if_neg hspanX, if_neg hspanY]
  simp only [Bounds.mk.injEq]
  exact ⟨trivial, trivial, by ring, by ring⟩

lemma xsOf_flatMap_pair (f g : Point → ℚ) (l : List Point) :
    xsOf (l.flatMap fun p => [f p, g p]) = l.map f := by
  induction l with
  | nil => rfl
  | cons p t ih =>
      show f p :: xsOf (t.flatMap fun q => [f q, g q]) = f p :: t.map f
      rw [ih]

lemma ysOf_flatMap_pair (f g : Point → ℚ) (l : List Point) :
    ysOf (l.flatMap fun p => [f p, g p]) = l.map g := by
  induction l with
  | nil => rfl
  | cons p t ih =>
      show g p :: ysOf (t.flatMap fun q => [f q, g q]) = g p :: t.map g
      rw [ih]

lemma length_flatMap_pair (f g : Point → ℚ) (l : List Point) :
    (l.flatMap fun p => [f p, g p]).length = l.length * 2 := by
  induction l with
  | nil => rfl
  | cons p t ih =>
      show ((t.flatMap fun q => [f q, g q]).length) + 1 + 1 = (t.length + 1) * 2
      rw [ih]
      ring

lemma normalizePositions_length (pts : List Point) (b : Bounds) (w : ℚ) :
    (normalizePositions pts b w).length = pts.length * 2 :=
  length_flatMap_pair _ _ pts

lemma buildHexPoints_eq (cols rows : ℕ) (cellH : ℚ) :
    buildHexPoints cols rows cellH =
      (List.range rows).flatMap (fun (j : ℕ) => (List.range cols).map
        (fun (i : ℕ) =>
          (⟨(i : ℚ) + ((j % 2 : ℕ) : ℚ) * (1/2), (j : ℚ) * cellH⟩ : Point))) := rfl

lemma buildHexPoints_length (cols rows : ℕ) (cellH : ℚ) :
    (buildHexPoints cols rows cellH).length = rows * cols := by
  rw [buildHexPoints_eq]
  induction rows with
  | zero => simp
  | succ r ih =>
      rw [List.range_succ, List.flatMap_append, List.length_append, ih]
      simp [Nat.succ_mul]

lemma index_lt {i j cols rows : ℕ} (hi : i < cols) (hj : j < rows) :
    j * cols + i < cols * rows := by
  have h1 : j * cols + i < (j + 1) * cols := by
    rw [Nat.succ_mul]; omega
  have h2 : (j + 1) * cols ≤ rows * cols := Nat.mul_le_mul_right cols hj
  have h3 : rows * cols = cols * rows := Nat.mul_comm rows cols
  omega

lemma mem_buildHexEdges_lt {cols rows e : ℕ}
    (he : e ∈ buildHexEdges cols rows) : e < cols * rows := by
  have hdef : buildHexEdges cols rows =
      (List.range rows).flatMap (fun (j : ℕ) =>
        (List.range cols).flatMap (fun (i : ℕ) =>
          (neighborOffsets.getD (j % 2) []).flatMap (fun d =>
            if (i : ℤ) + d.1 < 0 ∨ (cols : ℤ) ≤ (i : ℤ) + d.1 ∨
               (j : ℤ) + d.2 < 0 ∨ (rows : ℤ) ≤ (j : ℤ) + d.2 then []
            else [j * cols + i, ((j : ℤ) + d.2).toNat * cols + ((i : ℤ) + d.1).toNat]))) := rfl
  rw [hdef] at he
  rw [List.mem_flatMap] at he
  obtain ⟨j, hjmem, he⟩ := he
  rw [List.mem_flatMap] at he
  obtain ⟨i, himem, he⟩ := he
  rw [List.mem_flatMap] at he
  obtain ⟨d, hd, he⟩ := he
  have hj : j < rows := List.mem_range.mp hjmem
  have hi : i < cols := List.mem_range.mp himem
  by_cases hcond : (i : ℤ) + d.1 < 0 ∨ (cols : ℤ) ≤ (i : ℤ) + d.1 ∨
      (j : ℤ) + d.2 < 0 ∨ (rows : ℤ) ≤ (j : ℤ) + d.2
  · rw [if_pos hcond] at he
    exact absurd he (List.not_mem_nil e)
  · rw [if_neg hcond] at he
    push_neg at hcond
    obtain ⟨hni0, hnic, hnj0, hnjr⟩ := hcond
    rcases List.mem_cons.mp he with rfl | he
    · exact index_lt hi hj
    · rcases List.mem_cons.mp he with rfl | he
      · have h1 : ((i : ℤ) + d.1).toNat < cols := by omega
        have h2 : ((j : ℤ) + d.2).toNat < rows := by omega
        exact index_lt h1 h2
      · exact absurd he (List.not_mem_nil e)

/-- C1: for every cols at least 1 and rows at least 1, the Mesh Builder
(createHexGrid) produces a position buffer of exactly cols * rows points
(two entries per point), and every index in the returned index buffer is
in the range from 0 (inclusive, automatic for natural numbers) to
cols * rows (exclusive). -/
theorem C1_grid_counts_and_index_bounds (cellH : ℚ) (cols rows : ℕ)
    (_hc : 1 ≤ cols) (_hr : 1 ≤ rows) :
    (createHexGrid cellH cols rows).positions.length = cols * rows * 2 ∧
    ∀ e ∈ (createHexGrid cellH cols rows).indices, e < cols * rows := by
  constructor
  · have hpos : (createHexGrid cellH cols rows).positions =
        normalizePositions (buildHexPoints cols rows cellH)
          (computeBounds (buildHexPoints cols rows cellH)) (5/4) := rfl
    rw [hpos, normalizePositions_length, buildHexPoints_length, Nat.mul_comm rows cols]
  · intro e he
    have hidx : (createHexGrid cellH cols rows).indices =
        (buildHexEdges cols rows).map (· % 65536) := rfl
    rw [hidx, List.mem_map] at he
    obtain ⟨e₀, he₀, rfl⟩ := he
    have h1 : e₀ % 65536 ≤ e₀ := Nat.mod_le _ _
    have h2 : e₀ < cols * rows := mem_buildHexEdges_lt he₀
    omega

/-- Witness for C1 at cellHeight 1, cols = 2, rows = 2. -/
theorem C1_grid_counts_and_index_bounds_witness :
    (1 ≤ 2 ∧ 1 ≤ 2) ∧
    ((createHexGrid 1 2 2).positions.length = 2 * 2 * 2 ∧
     ∀ e ∈ (createHexGrid 1 2 2).indices, e < 2 * 2) :=
  ⟨⟨by norm_num, by norm_num⟩,
   C1_grid_counts_and_index_bounds 1 2 2 (by norm_num) (by norm_num)⟩

lemma normalizePositions_explicit (pts : List Point) (mx my sx sy w : ℚ) :
    normalizePositions pts ⟨mx, my, sx, sy⟩ w =
      pts.flatMap (fun p => [((p.x - mx) / sx * 2 - 1) * w, (p.y - my) / sy * 2 - 1]) := rfl

/-- C2: for every cols and rows at least 2 (and any positive cell
height), the normalized positions satisfy: every y coordinate lies in
[-1, 1] with both bounds attained (min y = -1 and max y = 1, exact in the
rational model of the float arithmetic), and at least one horizontal
bound is tight: every x coordinate is at least -1.25 with -1.25 attained
(in fact the left bound; the disjunct mirrors the claim). -/
theorem C2_normalization_tight_bounds (cellH : ℚ) (cols rows : ℕ)
    (hcell : 0 < cellH) (hc : 2 ≤ cols) (hr : 2 ≤ rows) :
    ((∀ y ∈ ysOf (createHexGrid cellH cols rows).positions, -1 ≤ y ∧ y ≤ 1) ∧
      (-1 : ℚ) ∈ ysOf (createHexGrid cellH cols rows).positions ∧
      (1 : ℚ) ∈ ysOf (createHexGrid cellH cols rows).positions) ∧
    (((∀ x ∈ xsOf (createHexGrid cellH cols rows).positions, -(5/4 : ℚ) ≤ x) ∧
        (-(5/4 : ℚ)) ∈ xsOf (createHexGrid cellH cols rows).positions) ∨
      ((∀ x ∈ xsOf (createHexGrid cellH cols rows).positions, x ≤ (5/4 : ℚ)) ∧
        ((5/4 : ℚ)) ∈ xsOf (createHexGrid cellH cols rows).positions)) := by
  have hc1 : 1 ≤ cols := by omega
  have hb := computeBounds_hex hcell hc1 hr
  have hpos : (createHexGrid cellH cols rows).positions =
      (buildHexPoints cols rows cellH).flatMap
        (fun p => [((p.x - 0) / ((cols : ℚ) - 1/2) * 2 - 1) * (5/4),
                   (p.y - 0) / (((rows : ℚ) - 1) * cellH) * 2 - 1]) := by
    have h1 : (createHexGrid cellH cols rows).positions =
        normalizePositions (buildHexPoints cols rows cellH)
          (computeBounds (buildHexPoints cols rows cellH)) (5/4) := rfl
    rw [h1, hb, normalizePositions_explicit]
  have hys : ysOf (createHexGrid cellH cols rows).positions =
      (buildHexPoints cols rows cellH).map
        (fun p => (p.y - 0) / (((rows : ℚ) - 1) * cellH) * 2 - 1) := by
    rw [hpos, ysOf_flatMap_pair]
  have hxs : xsOf (createHexGrid cellH cols rows).positions =
      (buildHexPoints cols rows cellH).map
        (fun p => ((p.x - 0) / ((cols : ℚ) - 1/2) * 2 - 1) * (5/4)) := by
    rw [hpos, xsOf_flatMap_pair]
  have hspanY : (0 : ℚ) < ((rows : ℚ) - 1) * cellH := by
    have h2 : (2 : ℚ) ≤ (rows : ℚ) := by exact_mod_cast hr
    nlinarith
  have hspanX : (0 : ℚ) < (cols : ℚ) - 1/2 := by
    have h2 : (1 : ℚ) ≤ (cols : ℚ) := by exact_mod_cast hc1
    linarith
  refine ⟨⟨?_, ?_, ?_⟩, Or.inl ⟨?_, ?_⟩⟩
  · intro y hy
    rw [hys, List.mem_map] at hy
    obtain ⟨p, hp, rfl⟩ := hy
    have hy0 : (0 : ℚ) ≤ p.y := hex_y_nonneg hcell.le hp
    have hy1 : p.y ≤ ((rows : ℚ) - 1) * cellH := hex_y_le hcell.le hp
    have hq0 : (0 : ℚ) ≤ (p.y - 0) / (((rows : ℚ) - 1) * cellH) :=
      div_nonneg (by linarith) hspanY.le
    have hq1 : (p.y - 0) / (((rows : ℚ) - 1) * cellH) ≤ 1 := by
      rw [div_le_one hspanY]; linarith
    constructor
    · linarith
    · linarith
  · rw [hys]
    refine List.mem_map.mpr ⟨⟨0, 0⟩, hex_mem_origin hc1 (by omega), ?_⟩
    norm_num
  · rw [hys]
    refine List.mem_map.mpr ⟨_, @hex_mem_top cols rows cellH hc1 (by omega), ?_⟩
    show (((rows : ℚ) - 1) * cellH - 0) / (((rows : ℚ) - 1) * cellH) * 2 - 1 = 1
    rw [sub_zero, div_self hspanY.ne']
    norm_num
  · intro x hx
    rw [hxs, List.mem_map] at hx
    obtain ⟨p, hp, rfl⟩ := hx
    have hx0 : (0 : ℚ) ≤ p.x := hex_x_nonneg hp
    have hq0 : (0 : ℚ) ≤ (p.x - 0) / ((cols : ℚ) - 1/2) :=
      div_nonneg (by linarith) hspanX.le
    have h1 : (-1 : ℚ) ≤ (p.x - 0) / ((cols : ℚ) - 1/2) * 2 - 1 := by linarith
    nlinarith
  · rw [hxs]
    refine List.mem_map.mpr ⟨⟨0, 0⟩, hex_mem_origin hc1 (by omega), ?_⟩
    norm_num

/-- Witness for C2 at cellHeight 1, cols = 2, rows = 2. -/
theorem C2_normalization_tight_bounds_witness :
    ((0 : ℚ) < 1 ∧ 2 ≤ 2 ∧ 2 ≤ 2) ∧
    (((∀ y ∈ ysOf (createHexGrid 1 2 2).positions, -1 ≤ y ∧ y ≤ 1) ∧
       (-1 : ℚ) ∈ ysOf (createHexGrid 1 2 2).positions ∧
       (1 : ℚ) ∈ ysOf (createHexGrid 1 2 2).positions) ∧
     (((∀ x ∈ xsOf (createHexGrid 1 2 2).positions, -(5/4 : ℚ) ≤ x) ∧
         (-(5/4 : ℚ)) ∈ xsOf (createHexGrid 1 2 2).positions) ∨
       ((∀ x ∈ xsOf (createHexGrid 1 2 2).positions, x ≤ (5/4 : ℚ)) ∧
         ((5/4 : ℚ)) ∈ xsOf (createHexGrid 1 2 2).positions))) :=
  ⟨⟨by norm_num, by norm_num, by norm_num⟩,
   C2_normalization_tight_bounds 1 2 2 (by norm_num) (by norm_num) (by norm_num)⟩

/-- C3 counterexample: at the exact breakpoint width 480 the render loop
computes scale 1.4 (the strict comparison 480 < 480 fails), not the 1.8
the claim assigns to the lower bucket. -/
theorem C3_boundary_480_counterexample :
    scaleForWidth 480 = 7/5 ∧ (7/5 : ℚ) ≠ 9/5 := by
  constructor
  · norm_num [scaleForWidth]
  · norm_num

/-- C3 amended: widths 400, 600, 900 and 1920 map to scales 1.8, 1.4,
1.2 and 1.0 as claimed, but the exact breakpoint widths 480, 768 and
1024 fall into the upper bucket (scales 1.4, 1.2 and 1.0), because the
code compares with strict less-than. -/
theorem C3_scale_mapping_amended :
    scaleForWidth 400 = 9/5 ∧ scaleForWidth 600 = 7/5 ∧
    scaleForWidth 900 = 6/5 ∧ scaleForWidth 1920 = 1 ∧
    scaleForWidth 480 = 7/5 ∧ scaleForWidth 768 = 6/5 ∧
    scaleForWidth 1024 = 1 := by
  refine ⟨?_, ?_, ?_, ?_, ?_, ?_, ?_⟩ <;> norm_num [scaleForWidth]

lemma easeIter_sub (t : ℚ × ℚ) : ∀ (n : ℕ) (m : ℚ × ℚ),
    t.1 - (easeIter t n m).1 = (93/100)^n * (t.1 - m.1) ∧
    t.2 - (easeIter t n m).2 = (93/100)^n * (t.2 - m.2) := by
  intro n
  induction n with
  | zero => intro m; constructor <;> simp [easeIter]
  | succ k ih =>
      intro m
      have h2 := ih (easeStep t m)
      constructor
      · show t.1 - (easeIter t k (easeStep t m)).1 = _
        rw [h2.1]
        show (93/100 : ℚ)^k * (t.1 - (m.1 + (t.1 - m.1) * (7/100))) = _
        ring
      · show t.2 - (easeIter t k (easeStep t m)).2 = _
        rw [h2.2]
        show (93/100 : ℚ)^k * (t.2 - (m.2 + (t.2 - m.2) * (7/100))) = _
        ring

lemma easeIter_distSq (t m : ℚ × ℚ) (n : ℕ) :
    distSq (easeIter t n m) t = ((93/100 : ℚ)^n)^2 * distSq m t := by
  have h := easeIter_sub t n m
  unfold distSq
  rw [h.1, h.2]
  ring

/-- C4 counterexample: with the target at (1, 0) and the pointer starting
at (0, 0) (initial distance 1), after 60 easing frames the remaining
distance is (93/100)^60, about 1.29e-2 of the initial distance — not
below 1e-3 of it. Distances are compared through their squares to stay in
the rationals. -/
theorem C4_sixty_frames_counterexample :
    ¬ distSq (easeIter ((1 : ℚ), (0 : ℚ)) 60 ((0 : ℚ), (0 : ℚ))) ((1 : ℚ), (0 : ℚ))
        < ((1 : ℚ)/1000)^2 * distSq ((0 : ℚ), (0 : ℚ)) ((1 : ℚ), (0 : ℚ)) := by
  rw [easeIter_distSq]
  have hd : distSq ((0 : ℚ), (0 : ℚ)) ((1 : ℚ), (0 : ℚ)) = 1 := by norm_num [distSq]
  rw [hd, mul_one, mul_one]
  norm_num

/-- C4 amended: the easing iteration contracts the distance to a constant
target by the factor 93/100 per frame, so after 60 frames the remaining
distance is exactly (93/100)^60 of the initial distance, which is below
1.3e-2 of it (but not below the 1e-3 the claim states). Squared distances
stand in for distances throughout. -/
theorem C4_easing_convergence_rate (t m : ℚ × ℚ) :
    distSq (easeIter t 60 m) t = ((93/100 : ℚ)^60)^2 * distSq m t ∧
    distSq (easeIter t 60 m) t ≤ ((13/1000 : ℚ))^2 * distSq m t := by
  refine ⟨easeIter_distSq t m 60, ?_⟩
  rw [easeIter_distSq]
  have h1 : (((93/100 : ℚ))^60)^2 ≤ ((13/1000 : ℚ))^2 := by norm_num
  have h2 : 0 ≤ distSq m t := by unfold distSq; positivity
  exact mul_le_mul_of_nonneg_right h1 h2

/-- C5: a shock started at timestamp t0 (milliseconds, nonnegative as
performance.now always is) is cleared when the render loop evaluates it
five seconds later: start resets to the -1 sentinel and both derived
scalars are 0; evaluated one second after t0 both shockStrength (11/16)
and shockHeat (6/11) lie in (0, 1]. -/
theorem C5_shock_aging (ox oy t0 : ℚ) (ht0 : 0 ≤ t0) :
    ((shockFrame ⟨ox, oy, t0⟩ (t0 + 5000)).1.start = -1 ∧
     (shockFrame ⟨ox, oy, t0⟩ (t0 + 5000)).2.2.1 = 0 ∧
     (shockFrame ⟨ox, oy, t0⟩ (t0 + 5000)).2.2.2 = 0) ∧
    (0 < (shockFrame ⟨ox, oy, t0⟩ (t0 + 1000)).2.2.1 ∧
     (shockFrame ⟨ox, oy, t0⟩ (t0 + 1000)).2.2.1 ≤ 1 ∧
     0 < (shockFrame ⟨ox, oy, t0⟩ (t0 + 1000)).2.2.2 ∧
     (shockFrame ⟨ox, oy, t0⟩ (t0 + 1000)).2.2.2 ≤ 1) := by
  have h5 : shockFrame ⟨ox, oy, t0⟩ (t0 + 5000) = (⟨ox, oy, -1⟩, -1, 0, 0) := by
    unfold shockFrame
    rw [if_pos (show (0 : ℚ) ≤ (ShockState.mk ox oy t0).start from ht0)]
    rw [if_pos (show (9/2 : ℚ) < (t0 + 5000 - (ShockState.mk ox oy t0).start) * (1/1000) by
      show (9/2 : ℚ) < (t0 + 5000 - t0) * (1/1000)
      have : (t0 + 5000 - t0) * (1/1000 : ℚ) = 5 := by ring
      rw [this]; norm_num)]
    norm_num
  have h1 : shockFrame ⟨ox, oy, t0⟩ (t0 + 1000) = (⟨ox, oy, t0⟩, 1, 11/16, 6/11) := by
    unfold shockFrame
    rw [if_pos (show (0 : ℚ) ≤ (ShockState.mk ox oy t0).start from ht0)]
    have hage : (t0 + 1000 - (ShockState.mk ox oy t0).start) * (1/1000 : ℚ) = 1 := by
      show (t0 + 1000 - t0) * (1/1000 : ℚ) = 1
      ring
    rw [hage]
    rw [if_neg (show ¬ (9/2 : ℚ) < 1 by norm_num)]
    norm_num
  rw [h5, h1]
  norm_num

/-- Witness for C5 at origin (0, 0) and t0 = 0. -/
theorem C5_shock_aging_witness :
    (0 : ℚ) ≤ 0 ∧
    (((shockFrame ⟨0, 0, 0⟩ (0 + 5000)).1.start = -1 ∧
      (shockFrame ⟨0, 0, 0⟩ (0 + 5000)).2.2.1 = 0 ∧
      (shockFrame ⟨0, 0, 0⟩ (0 + 5000)).2.2.2 = 0) ∧
     (0 < (shockFrame ⟨0, 0, 0⟩ (0 + 1000)).2.2.1 ∧
      (shockFrame ⟨0, 0, 0⟩ (0 + 1000)).2.2.1 ≤ 1 ∧
      0 < (shockFrame ⟨0, 0, 0⟩ (0 + 1000)).2.2.2 ∧
      (shockFrame ⟨0, 0, 0⟩ (0 + 1000)).2.2.2 ≤ 1)) :=
  ⟨le_refl 0, C5_shock_aging 0 0 0 (le_refl 0)⟩

/-- C7: the degenerate 1 x 1 grid triggers both degenerate-span guards
(spanX = spanY = 1, so no division by zero occurs) and produces exactly
one point, at the well-defined normalized position (-1.25, -1). -/
theorem C7_degenerate_grid (cellH : ℚ) :
    (createHexGrid cellH 1 1).positions = [-(5/4 : ℚ), -1] ∧
    (computeBounds (buildHexPoints 1 1 cellH)).spanX = 1 ∧
    (computeBounds (buildHexPoints 1 1 cellH)).spanY = 1 := by
  have hpts : buildHexPoints 1 1 cellH = [⟨0, 0⟩] := by
    rw [buildHexPoints_eq]
    have hr1 : List.range 1 = [0] := rfl
    rw [hr1]
    simp [Point.mk.injEq]
  have hbounds : computeBounds [(⟨0, 0⟩ : Point)] = ⟨0, 0, 1, 1⟩ := by
    norm_num [computeBounds, boundsAcc, updMin, updMax]
  have hpos : (createHexGrid cellH 1 1).positions =
      normalizePositions (buildHexPoints 1 1 cellH)
        (computeBounds (buildHexPoints 1 1 cellH)) (5/4) := rfl
  refine ⟨?_, ?_, ?_⟩
  · rw [hpos, hpts, hbounds, normalizePositions_explicit]
    norm_num
  · rw [hpts, hbounds]
  · rw [hpts, hbounds]

/-- C8: the Mesh Builder is deterministic: two invocations with equal
(cols, rows) arguments (and the same cell-height constant) return
identical position buffers and identical index buffers. The translated
builder is a pure function of its arguments — the source reads no
mutable or ambient state — so the two runs coincide definitionally. -/
theorem C8_grid_deterministic (cellH : ℚ) (c1 r1 c2 r2 : ℕ)
    (hc : c1 = c2) (hr : r1 = r2) :
    (createHexGrid cellH c1 r1).positions = (createHexGrid cellH c2 r2).positions ∧
    (createHexGrid cellH c1 r1).indices = (createHexGrid cellH c2 r2).indices := by
  subst hc
  subst hr
  exact ⟨rfl, rfl⟩

/-- Witness for C8 at cellHeight 1 and the 4 x 3 grid. -/
theorem C8_grid_deterministic_witness :
    (4 = 4 ∧ 3 = 3) ∧
    ((createHexGrid 1 4 3).positions = (createHexGrid 1 4 3).positions ∧
     (createHexGrid 1 4 3).indices = (createHexGrid 1 4 3).indices) :=
  ⟨⟨rfl, rfl⟩, C8_grid_deterministic 1 4 3 4 3 rfl rfl⟩

/-- Consecutive entries of a flat index buffer grouped into the edge
pairs they encode (the buffer is drawn as independent line segments). -/
def toPairs : List ℕ → List (ℕ × ℕ)
  | a :: b :: t => (a, b) :: toPairs t
  | _ => []

/-- An edge pair with its endpoints sorted, so that the two orientations
of an undirected edge compare equal. -/
def undirectedPair (e : ℕ × ℕ) : ℕ × ℕ := (min e.1 e.2, max e.1 e.2)

/-- Whether an edge pair is one of the diagonal edges: its endpoints sit
on consecutive rows and on different columns (rows and columns recovered
from the point index by division and remainder by cols). -/
def isDiagEdge (cols : ℕ) (e : ℕ × ℕ) : Bool :=
  (e.2 / cols == e.1 / cols + 1) && (e.2 % cols != e.1 % cols)

/-- The diagonal edges required by the parity rule as the claim states
it: a point (i, j) in an even row connects to column i - 1 of row j + 1,
a point in an odd row to column i + 1 of row j + 1, skipping neighbors
outside the grid. -/
def expectedDiagPairs (cols rows : ℕ) : List (ℕ × ℕ) :=
  (List.range rows).flatMap (fun (j : ℕ) =>
    if j + 1 < rows then
      (List.range cols).filterMap (fun (i : ℕ) =>
        let di : ℤ := if j % 2 = 0 then (i : ℤ) - 1 else (i : ℤ) + 1
        if 0 ≤ di ∧ di < (cols : ℤ) then
          some (j * cols + i, (j + 1) * cols + di.toNat)
        else none)
    else [])

/-- C6: the Mesh Builder at cols = 4, rows = 3 yields exactly 12 points
(24 position entries), a non-empty index buffer in which no undirected
endpoint pair repeats, and whose diagonal edges are exactly the ones the
row-parity rule prescribes (even row to column i - 1 of the next row, odd
row to column i + 1, out-of-range neighbors skipped). -/
theorem C6_four_by_three_end_to_end (cellH : ℚ) :
    (createHexGrid cellH 4 3).positions.length = 12 * 2 ∧
    (createHexGrid cellH 4 3).indices ≠ [] ∧
    ((toPairs (createHexGrid cellH 4 3).indices).map undirectedPair).Nodup ∧
    (toPairs (createHexGrid cellH 4 3).indices).filter (fun e => isDiagEdge 4 e) =
      expectedDiagPairs 4 3 := by
  have hidx : (createHexGrid cellH 4 3).indices = (buildHexEdges 4 3).map (· % 65536) := rfl
  refine ⟨?_, ?_, ?_, ?_⟩
  · have h1 : (createHexGrid cellH 4 3).positions =
        normalizePositions (buildHexPoints 4 3 cellH)
          (computeBounds (buildHexPoints 4 3 cellH)) (5/4) := rfl
    rw [h1, normalizePositions_length, buildHexPoints_length]
  · rw [hidx]; decide
  · rw [hidx]; decide
  · rw [hidx]; decide

lemma shockFrame_fst_cases (s : ShockState) (ms : ℚ) :
    ((shockFrame s ms).1.originX = s.originX ∧ (shockFrame s ms).1.originY = s.originY) ∧
    ((shockFrame s ms).1.start = s.start ∨ (shockFrame s ms).1.start = -1) := by
  unfold shockFrame
  by_cases h1 : 0 ≤ s.start
  · rw [if_pos h1]
    by_cases h2 : (9 : ℚ)/2 < (ms - s.start) * (1/1000)
    · rw [if_pos h2]
      exact ⟨⟨rfl, rfl⟩, Or.inr rfl⟩
    · rw [if_neg h2]
      exact ⟨⟨rfl, rfl⟩, Or.inl rfl⟩
  · rw [if_neg h1]
    exact ⟨⟨rfl, rfl⟩, Or.inl rfl⟩

/-- C9: the shock bookkeeping is a single record and stays one: every
primary pointer-down overwrites origin and start with the new press (no
queueing, independent of the previous state); a frame whose computed age
exceeds the 4.5 second ceiling clears the shock (start = -1); and over
every sequence of pointer-down and frame events starting from the initial
state, the resulting record is either still the initial one or carries
the origin of one of the pointer-down events of the sequence, with start
equal to that event's timestamp or already cleared to -1. -/
theorem C9_single_shock_overwrite_expire :
    (∀ (s : ShockState) (x y now : ℚ),
        shockStep s (ShockEvent.down x y now) = ⟨x, y, now⟩) ∧
    (∀ (s : ShockState) (ms : ℚ), 0 ≤ s.start →
        9/2 < (ms - s.start) * (1/1000) →
        (shockStep s (ShockEvent.frame ms)).start = -1) ∧
    (∀ evs : List ShockEvent,
        shockRun shockInit evs = shockInit ∨
        ∃ x y now, ShockEvent.down x y now ∈ evs ∧
          (shockRun shockInit evs).originX = x ∧
          (shockRun shockInit evs).originY = y ∧
          ((shockRun shockInit evs).start = now ∨ (shockRun shockInit evs).start = -1)) := by
  refine ⟨fun s x y now => rfl, ?_, ?_⟩
  · intro s ms h1 h2
    show (shockFrame s ms).1.start = -1
    unfold shockFrame
    rw [if_pos h1, if_pos h2]
  · intro evs
    induction evs using List.reverseRecOn with
    | nil => exact Or.inl rfl
    | append_singleton evs e ih =>
        have hsplit : shockRun shockInit (evs ++ [e]) =
            shockStep (shockRun shockInit evs) e := by
          show List.foldl shockStep shockInit (evs ++ [e]) = _
          rw [List.foldl_append]
          rfl
        cases e with
        | down x y now =>
            right
            refine ⟨x, y, now, by simp, ?_, ?_, Or.inl ?_⟩ <;>
              rw [hsplit] <;> rfl
        | frame ms =>
            have hcase := shockFrame_fst_cases (shockRun shockInit evs) ms
            rcases ih with h | ⟨x, y, now, hmem, hox, hoy, hst⟩
            · left
              rw [hsplit, h]
              show (shockFrame shockInit ms).1 = shockInit
              unfold shockFrame
              rw [if_neg (show ¬ (0 : ℚ) ≤ shockInit.start by norm_num [shockInit])]
            · right
              refine ⟨x, y, now, List.mem_append_left _ hmem, ?_, ?_, ?_⟩
              · rw [hsplit]
                show (shockFrame (shockRun shockInit evs) ms).1.originX = x
                rw [hcase.1.1, hox]
              · rw [hsplit]
                show (shockFrame (shockRun shockInit evs) ms).1.originY = y
                rw [hcase.1.2, hoy]
              · rw [hsplit]
                show (shockFrame (shockRun shockInit evs) ms).1.start = now ∨
                     (shockFrame (shockRun shockInit evs) ms).1.start = -1
                rcases hcase.2 with hkeep | hclear
                · rcases hst with hnow | hneg
                  · exact Or.inl (by rw [hkeep, hnow])
                  · exact Or.inr (by rw [hkeep, hneg])
                · exact Or.inr hclear

/-- Witness for C9: a shock started at time 0 is cleared by a frame at
5000 milliseconds (age 5 seconds, beyond the 4.5 second ceiling). -/
theorem C9_single_shock_overwrite_expire_witness :
    (0 : ℚ) ≤ (ShockState.mk 0 0 0).start ∧
    (shockStep ⟨0, 0, 0⟩ (ShockEvent.frame 5000)).start = -1 :=
  ⟨by norm_num,
   C9_single_shock_overwrite_expire.2.1 ⟨0, 0, 0⟩ 5000 (by norm_num)
     (by norm_num)⟩

lemma flatMap_congr {α β : Type} {l : List α} {f g : α → List β}
    (h : ∀ x ∈ l, f x = g x) : l.flatMap f = l.flatMap g := by
  induction l with
  | nil => rfl
  | cons a t ih =>
      rw [List.flatMap_cons, List.flatMap_cons, h a (by simp),
        ih (fun x hx => h x (by simp [hx]))]

lemma buildHexEdges_eq (cols rows : ℕ) :
    buildHexEdges cols rows =
      (List.range rows).flatMap (fun (j : ℕ) =>
        (List.range cols).flatMap (fun (i : ℕ) =>
          (neighborOffsets.getD (j % 2) []).flatMap (fun d =>
            if (i : ℤ) + d.1 < 0 ∨ (cols : ℤ) ≤ (i : ℤ) + d.1 ∨
               (j : ℤ) + d.2 < 0 ∨ (rows : ℤ) ≤ (j : ℤ) + d.2 then []
            else [j * cols + i, ((j : ℤ) + d.2).toNat * cols + ((i : ℤ) + d.1).toNat]))) := rfl

lemma edge_cell_eq {cols rows j i : ℕ} (hj : j < rows) (hi : i < cols) :
    (if i + 1 < cols then [j * cols + i, j * cols + (i + 1)] else []) ++
    (if j + 1 < rows then
       [j * cols + i, (j + 1) * cols + i] ++
       (if 0 ≤ (if j % 2 = 1 then (i : ℤ) + 1 else (i : ℤ) - 1) ∧
           (if j % 2 = 1 then (i : ℤ) + 1 else (i : ℤ) - 1) < (cols : ℤ)
        then [j * cols + i,
              (j + 1) * cols + (if j % 2 = 1 then (i : ℤ) + 1 else (i : ℤ) - 1).toNat]
        else [])
     else []) =
    (neighborOffsets.getD (j % 2) []).flatMap (fun d =>
      if (i : ℤ) + d.1 < 0 ∨ (cols : ℤ) ≤ (i : ℤ) + d.1 ∨
         (j : ℤ) + d.2 < 0 ∨ (rows : ℤ) ≤ (j : ℤ) + d.2 then []
      else [j * cols + i, ((j : ℤ) + d.2).toNat * cols + ((i : ℤ) + d.1).toNat]) := by
  rcases Nat.mod_two_eq_zero_or_one j with hpar | hpar <;> rw [hpar]
  · -- even row: diagonal column i - 1
    rw [if_neg (show ¬ (0 : ℕ) = 1 by norm_num)]
    rw [show neighborOffsets.getD 0 [] =
        [((1 : ℤ), (0 : ℤ)), ((0 : ℤ), (1 : ℤ)), ((-1 : ℤ), (1 : ℤ))] from rfl]
    rw [List.flatMap_cons, List.flatMap_cons, List.flatMap_cons, List.flatMap_nil,
      List.append_nil]
    dsimp only
    congr 1
    · by_cases h : i + 1 < cols
      · rw [if_pos h, if_neg (show ¬ ((i : ℤ) + 1 < 0 ∨ (cols : ℤ) ≤ (i : ℤ) + 1 ∨
            (j : ℤ) + 0 < 0 ∨ (rows : ℤ) ≤ (j : ℤ) + 0) by omega)]
        have e1 : ((j : ℤ) + 0).toNat = j := by omega
        have e2 : ((i : ℤ) + 1).toNat = i + 1 := by omega
        rw [e1, e2]
      · rw [if_neg h, if_pos (show (i : ℤ) + 1 < 0 ∨ (cols : ℤ) ≤ (i : ℤ) + 1 ∨
            (j : ℤ) + 0 < 0 ∨ (rows : ℤ) ≤ (j : ℤ) + 0 by omega)]
    · by_cases h2 : j + 1 < rows
      · rw [if_pos h2, if_neg (show ¬ ((i : ℤ) + 0 < 0 ∨ (cols : ℤ) ≤ (i : ℤ) + 0 ∨
            (j : ℤ) + 1 < 0 ∨ (rows : ℤ) ≤ (j : ℤ) + 1) by omega)]
        have e1 : ((j : ℤ) + 1).toNat = j + 1 := by omega
        have e2 : ((i : ℤ) + 0).toNat = i := by omega
        rw [e1, e2]
        congr 1
        by_cases h3 : 0 ≤ (i : ℤ) - 1 ∧ (i : ℤ) - 1 < (cols : ℤ)
        · rw [if_pos h3, if_neg (show ¬ ((i : ℤ) + -1 < 0 ∨ (cols : ℤ) ≤ (i : ℤ) + -1 ∨
              (j : ℤ) + 1 < 0 ∨ (rows : ℤ) ≤ (j : ℤ) + 1) by omega)]
          have e4 : ((i : ℤ) + -1).toNat = ((i : ℤ) - 1).toNat := by omega
          rw [e4]
        · rw [if_neg h3, if_pos (show (i : ℤ) + -1 < 0 ∨ (cols : ℤ) ≤ (i : ℤ) + -1 ∨
              (j : ℤ) + 1 < 0 ∨ (rows : ℤ) ≤ (j : ℤ) + 1 by omega)]
      · rw [if_neg h2, if_pos (show (i : ℤ) + 0 < 0 ∨ (cols : ℤ) ≤ (i : ℤ) + 0 ∨
            (j : ℤ) + 1 < 0 ∨ (rows : ℤ) ≤ (j : ℤ) + 1 by omega),
          if_pos (show (i : ℤ) + -1 < 0 ∨ (cols : ℤ) ≤ (i : ℤ) + -1 ∨
            (j : ℤ) + 1 < 0 ∨ (rows : ℤ) ≤ (j : ℤ) + 1 by omega)]
        rfl
  · -- odd row: diagonal column i + 1
    rw [if_pos rfl]
    rw [show neighborOffsets.getD 1 [] =
        [((1 : ℤ), (0 : ℤ)), ((0 : ℤ), (1 : ℤ)), ((1 : ℤ), (1 : ℤ))] from rfl]
    rw [List.flatMap_cons, List.flatMap_cons, List.flatMap_cons, List.flatMap_nil,
      List.append_nil]
    dsimp only
    congr 1
    · by_cases h : i + 1 < cols
      · rw [if_pos h, if_neg (show ¬ ((i : ℤ) + 1 < 0 ∨ (cols : ℤ) ≤ (i : ℤ) + 1 ∨
            (j : ℤ) + 0 < 0 ∨ (rows : ℤ) ≤ (j : ℤ) + 0) by omega)]
        have e1 : ((j : ℤ) + 0).toNat = j := by omega
        have e2 : ((i : ℤ) + 1).toNat = i + 1 := by omega
        rw [e1, e2]
      · rw [if_neg h, if_pos (show (i : ℤ) + 1 < 0 ∨ (cols : ℤ) ≤ (i : ℤ) + 1 ∨
            (j : ℤ) + 0 < 0 ∨ (rows : ℤ) ≤ (j : ℤ) + 0 by omega)]
    · by_cases h2 : j + 1 < rows
      · rw [if_pos h2, if_neg (show ¬ ((i : ℤ) + 0 < 0 ∨ (cols : ℤ) ≤ (i : ℤ) + 0 ∨
            (j : ℤ) + 1 < 0 ∨ (rows : ℤ) ≤ (j : ℤ) + 1) by omega)]
        have e1 : ((j : ℤ) + 1).toNat = j + 1 := by omega
        have e2 : ((i : ℤ) + 0).toNat = i := by omega
        rw [e1, e2]
        congr 1
        by_cases h3 : 0 ≤ (i : ℤ) + 1 ∧ (i : ℤ) + 1 < (cols : ℤ)
        · rw [if_pos h3, if_neg (show ¬ ((i : ℤ) + 1 < 0 ∨ (cols : ℤ) ≤ (i : ℤ) + 1 ∨
              (j : ℤ) + 1 < 0 ∨ (rows : ℤ) ≤ (j : ℤ) + 1) by omega)]
        · rw [if_neg h3, if_pos (show (i : ℤ) + 1 < 0 ∨ (cols : ℤ) ≤ (i : ℤ) + 1 ∨
              (j : ℤ) + 1 < 0 ∨ (rows : ℤ) ≤ (j : ℤ) + 1 by omega)]
      · rw [if_neg h2, if_pos (show (i : ℤ) + 0 < 0 ∨ (cols : ℤ) ≤ (i : ℤ) + 0 ∨
            (j : ℤ) + 1 < 0 ∨ (rows : ℤ) ≤ (j : ℤ) + 1 by omega),
          if_pos (show (i : ℤ) + 1 < 0 ∨ (cols : ℤ) ≤ (i : ℤ) + 1 ∨
            (j : ℤ) + 1 < 0 ∨ (rows : ℤ) ≤ (j : ℤ) + 1 by omega)]
        rfl

lemma simple_edges_eq (cols rows : ℕ) :
    ((List.range rows).flatMap (fun (j : ℕ) =>
      (List.range cols).flatMap (fun (i : ℕ) =>
        (if i + 1 < cols then [j * cols + i, j * cols + (i + 1)] else []) ++
        (if j + 1 < rows then
           [j * cols + i, (j + 1) * cols + i] ++
           (if 0 ≤ (if j % 2 = 1 then (i : ℤ) + 1 else (i : ℤ) - 1) ∧
               (if j % 2 = 1 then (i : ℤ) + 1 else (i : ℤ) - 1) < (cols : ℤ)
            then [j * cols + i,
                  (j + 1) * cols + (if j % 2 = 1 then (i : ℤ) + 1 else (i : ℤ) - 1).toNat]
            else [])
         else [])))) = buildHexEdges cols rows := by
  rw [buildHexEdges_eq]
  apply flatMap_congr
  intro j hj
  apply flatMap_congr
  intro i hi
  exact edge_cell_eq (List.mem_range.mp hj) (List.mem_range.mp hi)

/-- C10: the monolithic Mesh Builder of the simple variant and the
decomposed pipeline of the richer variant (buildHexPoints, computeBounds,
normalizePositions, buildHexEdges with the parity offset table) return
the same Grid — identical position buffers and identical index buffers,
in the same order — for every cols and rows at least 1 (indeed for all
cols and rows). -/
theorem C10_variants_build_same_grid (cellH : ℚ) (cols rows : ℕ)
    (_hc : 1 ≤ cols) (_hr : 1 ≤ rows) :
    createHexGridSimple cellH cols rows = createHexGrid cellH cols rows := by
  have hpos : (createHexGridSimple cellH cols rows).positions =
      (createHexGrid cellH cols rows).positions := rfl
  have hidx : (createHexGridSimple cellH cols rows).indices =
      (createHexGrid cellH cols rows).indices := by
    show ((List.range rows).flatMap (fun (j : ℕ) =>
        (List.range cols).flatMap (fun (i : ℕ) =>
          (if i + 1 < cols then [j * cols + i, j * cols + (i + 1)] else []) ++
          (if j + 1 < rows then
             [j * cols + i, (j + 1) * cols + i] ++
             (if 0 ≤ (if j % 2 = 1 then (i : ℤ) + 1 else (i : ℤ) - 1) ∧
                 (if j % 2 = 1 then (i : ℤ) + 1 else (i : ℤ) - 1) < (cols : ℤ)
              then [j * cols + i,
                    (j + 1) * cols + (if j % 2 = 1 then (i : ℤ) + 1 else (i : ℤ) - 1).toNat]
              else [])
           else [])))).map (· % 65536) =
      (buildHexEdges cols rows).map (· % 65536)
    rw [simple_edges_eq]
  have heta1 : createHexGridSimple cellH cols rows =
      ⟨(createHexGridSimple cellH cols rows).positions,
       (createHexGridSimple cellH cols rows).indices⟩ := rfl
  rw [heta1, hpos, hidx]

/-- Witness for C10 at cellHeight 1, cols = 2, rows = 2. -/
theorem C10_variants_build_same_grid_witness :
    (1 ≤ 2 ∧ 1 ≤ 2) ∧ createHexGridSimple 1 2 2 = createHexGrid 1 2 2 :=
  ⟨⟨by norm_num, by norm_num⟩,
   C10_variants_build_same_grid 1 2 2 (by norm_num) (by norm_num)⟩

end HexMesh
